import Mathlib

/-!
Shallow embedding of `src/models/goehring.py` (Goehring et al. 2011 polarity
model): the spatial discretization engine, reaction kinetics, cytoplasmic
feedback, RHS assembler (`odefunc`) and the setup phase of the simulation
driver (`run_model`).  Real arithmetic is modelled over `ℚ`; numpy arrays are
`List ℚ` indexed with `List.getD` (out-of-range reads never occur under the
length hypotheses of the theorems below).
-/

namespace Goehring

/-- Data fields of the `DEFAULT_PARAMETERS` dictionary
(`src/models/goehring.py` lines 16-49), without the three function-valued
entries which live in `Kvals` below. -/
structure BaseParams where
  label : String
  points_per_second : ℚ
  Nx : ℕ
  L : ℚ
  x0 : ℚ
  xL : ℚ
  t0 : ℚ
  tL : ℚ
  psi : ℚ
  D_A : ℚ
  D_P : ℚ
  k_onA : ℚ
  k_onP : ℚ
  k_offA : ℚ
  k_offP : ℚ
  k_AP : ℚ
  k_PA : ℚ
  rho_A : ℚ
  rho_P : ℚ
  alpha : ℕ
  beta : ℕ

/-- The data part of the resolved `kvals` dictionary: the merged parameters
plus the derived entries `X`, `deltax`, `t_eval`, `initial_condition`
(`run_model`, lines 118-128). -/
structure Params extends BaseParams where
  X : List ℚ
  deltax : ℚ
  t_eval : List ℚ
  initial_condition : List ℚ

/-- The full `kvals` dictionary: data plus the pluggable capabilities
`A_cyto`, `P_cyto`, `v_func`.  In the source these receive the whole `kvals`
dict; the default implementations (and every use in the claims) only read its
data fields, so here they receive `Params`. -/
structure Kvals extends Params where
  A_cyto : Params → List ℚ → ℚ
  P_cyto : Params → List ℚ → ℚ
  v_func : Params → ℚ → ℚ → ℚ

/-- `np.linspace(a, b, n)` over `ℚ`: `n` equally spaced samples from `a` to
`b` inclusive.  For `n = 1` the `ℚ` convention `x / 0 = 0` makes this `[a]`,
matching numpy. -/
def linspace (a b : ℚ) (n : ℕ) : List ℚ :=
  List.ofFn (fun i : Fin n => a + (i : ℚ) * (b - a) / ((n : ℚ) - 1))

/-- One Simpson pair term of `scipy.integrate.simpson` for sample-point
spacing (the `_basic_simpson` formula with an `x` array), covering the two
intervals `[x i, x (i+1)]` and `[x (i+1), x (i+2)]`. -/
def pairTerm (y x : ℕ → ℚ) (i : ℕ) : ℚ :=
  let h0 := x (i + 1) - x i
  let h1 := x (i + 2) - x (i + 1)
  let hsum := h0 + h1
  let hprod := h0 * h1
  let h0divh1 := h0 / h1
  hsum / 6 * (y i * (2 - 1 / h0divh1) + y (i + 1) * (hsum * hsum / hprod)
    + y (i + 2) * (2 - h0divh1))

/-- Sum of the first `m` Simpson pair terms (pairs starting at even indices
`0, 2, …, 2(m-1)`). -/
def basicSimpson (y x : ℕ → ℚ) : ℕ → ℚ
  | 0 => 0
  | m + 1 => basicSimpson y x m + pairTerm y x (2 * m)

/-- `scipy.integrate.simpson(Y, X)`: composite Simpson quadrature over the
sample points.  An odd number of samples uses pure pairwise Simpson; an even
number ≥ 4 uses Simpson on the first `N-1` points plus the Cartwright
correction for the last interval; two samples fall back to the trapezoid
rule. -/
def simpson (Y X : List ℚ) : ℚ :=
  let y := fun i => Y.getD i 0
  let x := fun i => X.getD i 0
  let N := Y.length
  if N % 2 = 0 then
    if N = 2 then (x 1 - x 0) * (y 0 + y 1) / 2
    else if N < 2 then 0
    else
      let h0 := x (N - 2) - x (N - 3)
      let h1 := x (N - 1) - x (N - 2)
      let a := (2 * h1 ^ 2 + 3 * h0 * h1) / (6 * (h1 + h0))
      let b := (h1 ^ 2 + 3 * h0 * h1) / (6 * h0)
      let e := h1 ^ 3 / (6 * h0 * (h0 + h1))
      basicSimpson y x ((N - 2) / 2) + a * y (N - 1) + b * y (N - 2) - e * y (N - 3)
  else basicSimpson y x ((N - 1) / 2)

/-- `Ybar` (line 12): `2 * integrate.simpson(Y, kvals["X"]) / kvals["L"]`. -/
def Ybar (k : Params) (Y : List ℚ) : ℚ := 2 * simpson Y k.X / k.L

/-- `default_A_cyto` (line 13). -/
def default_A_cyto (k : Params) (A : List ℚ) : ℚ := k.rho_A - k.psi * Ybar k A

/-- `default_P_cyto` (line 14). -/
def default_P_cyto (k : Params) (P : List ℚ) : ℚ := k.rho_P - k.psi * Ybar k P

/-- `default_v_func` (lines 8-9). -/
def default_v_func (_k : Params) (x t : ℚ) : ℚ :=
  -x * (x - 190) * (x - 35) / (700000 * (max 1 |(t - 120) / 80|) ^ 2)

/-- `disc_diffusion_term` (lines 52-60): second difference with reflective
boundary handling at both ends. -/
def disc_diffusion_term (k : Params) (Y : List ℚ) (x_i : ℕ) : ℚ :=
  if x_i = 0 then
    (Y.getD 1 0 - 2 * Y.getD 0 0 + Y.getD 1 0) / k.deltax ^ 2
  else if x_i = k.Nx - 1 then
    (Y.getD (k.Nx - 2) 0 - 2 * Y.getD (k.Nx - 1) 0 + Y.getD (k.Nx - 2) 0) / k.deltax ^ 2
  else
    (Y.getD (x_i + 1) 0 - 2 * Y.getD x_i 0 + Y.getD (x_i - 1) 0) / k.deltax ^ 2

/-- `disc_spatial_derivative` (lines 64-65): forward difference of `func`. -/
def disc_spatial_derivative (k : Params) (func : ℕ → ℚ) (x_i : ℕ) : ℚ :=
  (func (x_i + 1) - func x_i) / k.deltax

/-- `R_A` (lines 67-68). -/
def R_A (k : Params) (A P : List ℚ) (A_cyto_r : ℚ) (_t : ℚ) (x_i : ℕ) : ℚ :=
  k.k_onA * A_cyto_r - k.k_offA * A.getD x_i 0
    - k.k_AP * (P.getD x_i 0) ^ k.alpha * A.getD x_i 0

/-- `R_P` (lines 69-70). -/
def R_P (k : Params) (A P : List ℚ) (P_cyto_r : ℚ) (_t : ℚ) (x_i : ℕ) : ℚ :=
  k.k_onP * P_cyto_r - k.k_offP * P.getD x_i 0
    - k.k_PA * (A.getD x_i 0) ^ k.beta * P.getD x_i 0

/-- Python `min(U)`: `none` on the empty list (where Python raises
`ValueError`), otherwise the left fold of `min` over the list. -/
def pyMin : List ℚ → Option ℚ
  | [] => none
  | h :: t => some (t.foldl min h)

/-- Python `max(U)`. -/
def pyMax : List ℚ → Option ℚ
  | [] => none
  | h :: t => some (t.foldl max h)

/-- The ways `odefunc` can raise: the `assert len(U) == 2*Nx` (line 74), the
divergence `raise AssertionError` (line 80), and `min`/`max` on an empty
vector. -/
inductive OdeError where
  | lengthAssert : OdeError
  | divergence : OdeError
  | emptyMin : OdeError
deriving DecidableEq

instance {ε α : Type} [DecidableEq ε] [DecidableEq α] : DecidableEq (Except ε α) :=
  fun a b =>
    match a, b with
    | .error e1, .error e2 =>
      if h : e1 = e2 then isTrue (by rw [h])
      else isFalse (fun hc => h (by injection hc))
    | .ok v1, .ok v2 =>
      if h : v1 = v2 then isTrue (by rw [h])
      else isFalse (fun hc => h (by injection hc))
    | .error _, .ok _ => isFalse (fun hc => Except.noConfusion hc)
    | .ok _, .error _ => isFalse (fun hc => Except.noConfusion hc)

/-- The value the loop body and the manual boundary assignment store into
`dudt_A[i]` (lines 94-96 for `i = Nx-1`, lines 104-106 otherwise). -/
def dudtA_node (k : Kvals) (t : ℚ) (A P : List ℚ) (A_cyto_r : ℚ) (i : ℕ) : ℚ :=
  if i = k.Nx - 1 then
    k.D_A * disc_diffusion_term k.toParams A (k.Nx - 1)
      - (-(k.v_func k.toParams (k.X.getD (k.Nx - 2) 0) t) * A.getD (k.Nx - 2) 0
          - k.v_func k.toParams (k.X.getD (k.Nx - 1) 0) t * A.getD (k.Nx - 1) 0) / k.deltax
      + R_A k.toParams A P A_cyto_r t (k.Nx - 1)
  else
    k.D_A * disc_diffusion_term k.toParams A i
      - disc_spatial_derivative k.toParams
          (fun x_ii => k.v_func k.toParams (k.X.getD x_ii 0) t * A.getD x_ii 0) i
      + R_A k.toParams A P A_cyto_r t i

/-- The value stored into `dudt_P[i]` (lines 97-99 and 107-109). -/
def dudtP_node (k : Kvals) (t : ℚ) (A P : List ℚ) (P_cyto_r : ℚ) (i : ℕ) : ℚ :=
  if i = k.Nx - 1 then
    k.D_P * disc_diffusion_term k.toParams P (k.Nx - 1)
      - (-(k.v_func k.toParams (k.X.getD (k.Nx - 2) 0) t) * P.getD (k.Nx - 2) 0
          - k.v_func k.toParams (k.X.getD (k.Nx - 1) 0) t * P.getD (k.Nx - 1) 0) / k.deltax
      + R_P k.toParams A P P_cyto_r t (k.Nx - 1)
  else
    k.D_P * disc_diffusion_term k.toParams P i
      - disc_spatial_derivative k.toParams
          (fun x_ii => k.v_func k.toParams (k.X.getD x_ii 0) t * P.getD x_ii 0) i
      + R_P k.toParams A P P_cyto_r t i

/-- `odefunc` (lines 73-111): the RHS assembler.  Checks the length assert,
then the divergence bound `min(U) < -100 or max(U) > 100`, splits `U` into
the A and P blocks, resolves the cytoplasmic scalars once, fills `dudt_A`
and `dudt_P` (boundary node manually, the rest by the loop) and returns
their concatenation (`np.ravel` of the 2×Nx stack). -/
def odefunc (t : ℚ) (U : List ℚ) (k : Kvals) : Except OdeError (List ℚ) :=
  if U.length ≠ 2 * k.Nx then .error .lengthAssert
  else
    match pyMin U, pyMax U with
    | some mn, some mx =>
      if mn < -100 ∨ 100 < mx then .error .divergence
      else
        let A := U.take k.Nx
        let P := U.drop k.Nx
        let A_cyto_r := k.A_cyto k.toParams A
        let P_cyto_r := k.P_cyto k.toParams P
        let dudt_A := List.ofFn (fun i : Fin k.Nx => dudtA_node k t A P A_cyto_r i)
        let dudt_P := List.ofFn (fun i : Fin k.Nx => dudtP_node k t A P P_cyto_r i)
        .ok (dudt_A ++ dudt_P)
    | _, _ => .error .emptyMin

end Goehring
namespace Goehring

/-- `DEFAULT_PARAMETERS` (lines 16-49), data fields.  `8.58 * 10 ** (-3)`
etc. are exact over `ℚ`. -/
def DEFAULT_PARAMETERS : BaseParams where
  label := "goehring"
  points_per_second := 2
  Nx := 100
  L := 134.6
  x0 := 0
  xL := 67.3
  t0 := 0
  tL := 5000
  psi := 0.174
  D_A := 0.28
  D_P := 0.15
  k_onA := 8.58 * 10 ^ (-3 : ℤ)
  k_onP := 4.74 * 10 ^ (-2 : ℤ)
  k_offA := 5.4 * 10 ^ (-3 : ℤ)
  k_offP := 7.3 * 10 ^ (-3 : ℤ)
  k_AP := 0.190
  k_PA := 2.0
  rho_A := 1.56
  rho_P := 1.0
  alpha := 1
  beta := 2

/-- A caller-supplied override dictionary (`args` of `run_model`): any subset
of the recognized keys, `none` meaning "key absent". -/
structure Overrides where
  label : Option String
  points_per_second : Option ℚ
  Nx : Option ℕ
  L : Option ℚ
  x0 : Option ℚ
  xL : Option ℚ
  t0 : Option ℚ
  tL : Option ℚ
  psi : Option ℚ
  D_A : Option ℚ
  D_P : Option ℚ
  k_onA : Option ℚ
  k_onP : Option ℚ
  k_offA : Option ℚ
  k_offP : Option ℚ
  k_AP : Option ℚ
  k_PA : Option ℚ
  rho_A : Option ℚ
  rho_P : Option ℚ
  alpha : Option ℕ
  beta : Option ℕ
  A_cyto : Option (Params → List ℚ → ℚ)
  P_cyto : Option (Params → List ℚ → ℚ)
  v_func : Option (Params → ℚ → ℚ → ℚ)
  t_eval : Option (List ℚ)
  initial_condition : Option (List ℚ)

/-- The empty override dictionary (`run_model()` with no arguments). -/
def noOverrides : Overrides :=
  ⟨none, none, none, none, none, none, none, none, none, none, none, none, none,
   none, none, none, none, none, none, none, none, none, none, none, none, none⟩

/-- `params = {**DEFAULT_PARAMETERS, **args}` (line 115): each data key taken
from `args` when present, from the defaults otherwise. -/
def mergeParams (args : Overrides) : BaseParams where
  label := args.label.getD DEFAULT_PARAMETERS.label
  points_per_second := args.points_per_second.getD DEFAULT_PARAMETERS.points_per_second
  Nx := args.Nx.getD DEFAULT_PARAMETERS.Nx
  L := args.L.getD DEFAULT_PARAMETERS.L
  x0 := args.x0.getD DEFAULT_PARAMETERS.x0
  xL := args.xL.getD DEFAULT_PARAMETERS.xL
  t0 := args.t0.getD DEFAULT_PARAMETERS.t0
  tL := args.tL.getD DEFAULT_PARAMETERS.tL
  psi := args.psi.getD DEFAULT_PARAMETERS.psi
  D_A := args.D_A.getD DEFAULT_PARAMETERS.D_A
  D_P := args.D_P.getD DEFAULT_PARAMETERS.D_P
  k_onA := args.k_onA.getD DEFAULT_PARAMETERS.k_onA
  k_onP := args.k_onP.getD DEFAULT_PARAMETERS.k_onP
  k_offA := args.k_offA.getD DEFAULT_PARAMETERS.k_offA
  k_offP := args.k_offP.getD DEFAULT_PARAMETERS.k_offP
  k_AP := args.k_AP.getD DEFAULT_PARAMETERS.k_AP
  k_PA := args.k_PA.getD DEFAULT_PARAMETERS.k_PA
  rho_A := args.rho_A.getD DEFAULT_PARAMETERS.rho_A
  rho_P := args.rho_P.getD DEFAULT_PARAMETERS.rho_P
  alpha := args.alpha.getD DEFAULT_PARAMETERS.alpha
  beta := args.beta.getD DEFAULT_PARAMETERS.beta

/-- `np.ravel(M, order='F')` of an `n × 2` array given as a list of rows:
column-major flattening, i.e. all first components then all second
components. -/
def ravelF (M : List (ℚ × ℚ)) : List ℚ := M.map Prod.fst ++ M.map Prod.snd

/-- The ways the setup phase of `run_model` can raise: reading `X[1]`
(line 119) when the grid has fewer than two points, and `np.linspace` with a
negative sample count (line 125) when `t_eval` is absent and
`int(points_per_second * |tL - t0|)` is negative. -/
inductive SetupError where
  | indexError : SetupError
  | valueError : SetupError
deriving DecidableEq

/-- Python `int()` on a real value: truncation toward zero. -/
def pyInt (q : ℚ) : ℤ := if 0 ≤ q then ⌊q⌋ else -⌊-q⌋

/-- The setup phase of `run_model` (lines 114-128), up to but excluding the
`solve_ivp` call: merge the overrides over the defaults, build the grid
`X = np.linspace(x0, xL, Nx)` and `deltax = |X[1] - X[0]|`, resolve the
default output times `np.linspace(t0, tL, int(points_per_second*|tL-t0|))`
— where `np.linspace` raises `ValueError` if that sample count is negative —
and the default initial condition
`np.ravel([[0.5, 0.0] for _ in range(Nx)], order='F')`. -/
def run_model_setup (args : Overrides) : Except SetupError Kvals :=
  let p := mergeParams args
  if p.Nx < 2 then .error .indexError
  else
    let X := linspace p.x0 p.xL p.Nx
    let deltax := |X.getD 1 0 - X.getD 0 0|
    let ic := match args.initial_condition with
      | some u0 => u0
      | none => ravelF (List.replicate p.Nx (1 / 2, 0))
    match args.t_eval with
    | some te =>
      .ok { toBaseParams := p, X := X, deltax := deltax, t_eval := te,
            initial_condition := ic,
            A_cyto := args.A_cyto.getD default_A_cyto,
            P_cyto := args.P_cyto.getD default_P_cyto,
            v_func := args.v_func.getD default_v_func }
    | none =>
      let num := pyInt (p.points_per_second * |p.tL - p.t0|)
      if num < 0 then .error .valueError
      else
        .ok { toBaseParams := p, X := X, deltax := deltax,
              t_eval := linspace p.t0 p.tL num.toNat,
              initial_condition := ic,
              A_cyto := args.A_cyto.getD default_A_cyto,
              P_cyto := args.P_cyto.getD default_P_cyto,
              v_func := args.v_func.getD default_v_func }

/-! ### Heap model of the dictionary operations of `run_model`

For the frame property (`run_model` mutates neither `DEFAULT_PARAMETERS` nor
the caller's `args` dict) we model Python dictionaries explicitly: a store is
a list of dictionaries, a dictionary a list of key/value pairs, and the
sequence of dict operations performed by `run_model` acts on the store.
Values are abstract (`α`): the frame property does not depend on them. -/

/-- Python `d[key] = v`: overwrite in place when the key exists, append
otherwise. -/
def dictSet {α : Type} (d : List (String × α)) (key : String) (v : α) :
    List (String × α) :=
  if d.any (fun p => p.1 = key) then
    d.map (fun p => if p.1 = key then (key, v) else p)
  else d ++ [(key, v)]

/-- Python `{**d1, **d2}`: a fresh dict holding `d1`'s entries updated by
`d2`'s. -/
def dictMerge {α : Type} (d1 d2 : List (String × α)) : List (String × α) :=
  d2.foldl (fun acc p => dictSet acc p.1 p.2) d1

/-- The dictionary operations of `run_model` (lines 115-128) on an explicit
store: read defaults and args, allocate the fresh merged `params`, allocate
the fresh `kvals = {**params, "X": xv, "deltax": dxv}`, then the two in-place
writes `kvals["t_eval"] = tev` and `kvals["initial_condition"] = icv`.
Returns the new store and the address of `kvals`. -/
def run_model_dictOps {α : Type} (store : List (List (String × α)))
    (defaultsAddr argsAddr : ℕ) (xv dxv tev icv : α) :
    List (List (String × α)) × ℕ :=
  let params := dictMerge (store.getD defaultsAddr []) (store.getD argsAddr [])
  let store1 := store ++ [params]
  let kvals := dictSet (dictSet params ("X") xv) ("deltax") dxv
  let store2 := store1 ++ [kvals]
  let kvalsAddr := store1.length
  let store3 := store2.set kvalsAddr (dictSet kvals ("t_eval") tev)
  let store4 := store3.set kvalsAddr
    (dictSet (dictSet kvals ("t_eval") tev) ("initial_condition") icv)
  (store4, kvalsAddr)

end Goehring
namespace Goehring

/-- Modelled from the spec: the interior second-difference formula
`(Y[i+1] - 2Y[i] + Y[i-1]) / h²` over an integer-indexed (ghost-extended)
profile. -/
def specSecondDiff (Y : ℤ → ℚ) (h : ℚ) (i : ℤ) : ℚ :=
  (Y (i + 1) - 2 * Y i + Y (i - 1)) / h ^ 2

/-- Modelled from the spec: the ghost-reflection extension of a profile of
length `n` — `Y[-1]` reads `Y[1]`, `Y[n]` reads `Y[n-2]`, all other indices
read the array itself. -/
def reflectExtend (n : ℕ) (Y : List ℚ) : ℤ → ℚ := fun j =>
  if j = -1 then Y.getD 1 0
  else if j = (n : ℤ) then Y.getD (n - 2) 0
  else Y.getD j.toNat 0

/-- The advective flux-divergence term that `odefunc` subtracts from
`dudt[i]`: the manual reflected formula at the right boundary (lines 95, 98),
the forward difference of the flux `j ↦ v(X[j],t)·Y[j]` elsewhere
(lines 105, 108). -/
def advect_term (k : Kvals) (t : ℚ) (Y : List ℚ) (i : ℕ) : ℚ :=
  if i = k.Nx - 1 then
    (-(k.v_func k.toParams (k.X.getD (k.Nx - 2) 0) t) * Y.getD (k.Nx - 2) 0
      - k.v_func k.toParams (k.X.getD (k.Nx - 1) 0) t * Y.getD (k.Nx - 1) 0) / k.deltax
  else
    disc_spatial_derivative k.toParams
      (fun x_ii => k.v_func k.toParams (k.X.getD x_ii 0) t * Y.getD x_ii 0) i

/-- The trapezoid-weighted discrete mass of one species block: weight `1/2`
at the two boundary nodes, `1` inside.  This is the quadrature under which
the reflective diffusion stencil conserves mass. -/
def trapWeightedSum (Y : List ℚ) : ℚ :=
  Y.sum - Y.getD 0 0 / 2 - Y.getD (Y.length - 1) 0 / 2

/-! ### Concrete fixtures used by witnesses and counterexamples -/

/-- A small concrete parameter set: the defaults with a 3-node grid
`X = [0, 1, 2]`, `deltax = 1`. -/
def testParams : Params :=
  { toBaseParams := { DEFAULT_PARAMETERS with Nx := 3 },
    X := [0, 1, 2], deltax := 1, t_eval := [], initial_condition := [] }

/-- `testParams` with constant-zero pluggable capabilities. -/
def testKvals : Kvals :=
  { toParams := testParams,
    A_cyto := fun _ _ => 0, P_cyto := fun _ _ => 0, v_func := fun _ _ _ => 0 }

/-- A 3-node configuration with every reaction rate constant zero, unit
diffusion coefficients and the zero velocity field. -/
def baseC4 : BaseParams :=
  { DEFAULT_PARAMETERS with
    Nx := 3
    k_onA := 0
    k_onP := 0
    k_offA := 0
    k_offP := 0
    k_AP := 0
    k_PA := 0
    D_A := 1
    D_P := 1 }

/-- `baseC4` resolved into a full `kvals` with grid `[0, 1, 2]` and the zero
velocity field. -/
def kvalsC4 : Kvals :=
  { toParams := { toBaseParams := baseC4, X := [0, 1, 2], deltax := 1,
                  t_eval := [], initial_condition := [] },
    A_cyto := fun _ _ => 0, P_cyto := fun _ _ => 0, v_func := fun _ _ _ => 0 }

/-- A 3-node grid spanning exactly `L = 1` (so `x0 = 0`, `xL = 1`). -/
def paramsC6 : Params :=
  { toBaseParams := { DEFAULT_PARAMETERS with Nx := 3, L := 1, x0 := 0, xL := 1 }
    X := linspace 0 1 3, deltax := 1 / 2, t_eval := [], initial_condition := [] }

/-- Overrides shrinking the run to a 3-node grid and one second of simulated
time (all other keys default). -/
def smallArgs : Overrides :=
  { noOverrides with Nx := some 3, tL := some 1 }

/-- Overrides with invalid domain bounds: `xL = x0 = 0` and `tL = t0 = 0`
(so `xL ≤ x0` and `tL ≤ t0`), `Nx = 3`. -/
def invalidBoundsArgs : Overrides :=
  { noOverrides with Nx := some 3, xL := some 0, tL := some 0 }

/-- A two-dictionary store: the defaults dict at address 0, the caller's
args dict at address 1. -/
def storeC10 : List (List (String × ℚ)) := [[("a", 1)], [("b", 2)]]

/-- The resolved configuration produced by the setup phase on `smallArgs`
(used as a concrete witness input; the `getD` fallback is never taken since
setup succeeds on `smallArgs`). -/
def smallKvals : Kvals := (run_model_setup smallArgs).toOption.getD testKvals

/-- An all-integer parameter set (so that concrete evaluation stays in
kernel-reducible rational literals). -/
def intBase : BaseParams where
  label := "test"
  points_per_second := 2
  Nx := 3
  L := 4
  x0 := 0
  xL := 2
  t0 := 0
  tL := 1
  psi := 1
  D_A := 2
  D_P := 3
  k_onA := 1
  k_onP := 1
  k_offA := 1
  k_offP := 1
  k_AP := 1
  k_PA := 1
  rho_A := 1
  rho_P := 1
  alpha := 1
  beta := 2

/-- `intBase` resolved with grid `[0, 1, 2]`, constant cytoplasmic
capabilities and the velocity field `v(x, t) = x`. -/
def intKvals : Kvals :=
  { toParams := { toBaseParams := intBase, X := [0, 1, 2], deltax := 1,
                  t_eval := [], initial_condition := [] },
    A_cyto := fun _ _ => 1, P_cyto := fun _ _ => 2, v_func := fun _ x _ => x }

/-- The RHS vector `odefunc` produces on the state `[1, 2, 3, 4, 5, 6]` under
`intKvals` (the `getD` fallback is never taken since that call succeeds). -/
def Vint : List ℚ := (odefunc 0 [1, 2, 3, 4, 5, 6] intKvals).toOption.getD []

end Goehring
namespace Goehring

/-! ### Generic helper lemmas -/

lemma getD_ofFn_nat (g : ℕ → ℚ) {n i : ℕ} (h : i < n) :
    (List.ofFn (fun j : Fin n => g j)).getD i 0 = g i := by
  rw [List.getD_eq_getElem _ _ (by simpa using h), List.getElem_ofFn]

lemma sum_ofFn_nat (g : ℕ → ℚ) (n : ℕ) :
    (List.ofFn (fun j : Fin n => g j)).sum = ∑ i ∈ Finset.range n, g i := by
  rw [List.sum_ofFn, Fin.sum_univ_eq_sum_range]

lemma getD_replicate {n i : ℕ} {c : ℚ} (h : i < n) :
    (List.replicate n c).getD i 0 = c := by
  rw [List.getD_eq_getElem _ _ (by simpa using h)]
  exact List.getElem_replicate ..

lemma le_foldl_max_init (t : List ℚ) (h : ℚ) : h ≤ t.foldl max h := by
  induction t generalizing h with
  | nil => exact le_refl h
  | cons h' t ih => exact le_trans (le_max_left h h') (ih (max h h'))

lemma le_foldl_max_of_mem {t : List ℚ} {h u : ℚ} (hu : u ∈ h :: t) :
    u ≤ t.foldl max h := by
  induction t generalizing h with
  | nil => rw [List.mem_singleton] at hu; exact hu.le
  | cons h' t ih =>
    rcases List.mem_cons.mp hu with rfl | hu2
    · exact le_trans (le_max_left u h') (le_foldl_max_init t (max u h'))
    rcases List.mem_cons.mp hu2 with rfl | h3
    · exact le_trans (le_max_right h u) (le_foldl_max_init t (max h u))
    · exact ih (List.mem_cons_of_mem _ h3)

lemma foldl_max_le {t : List ℚ} {h c : ℚ} (hc : h ≤ c) (ht : ∀ u ∈ t, u ≤ c) :
    t.foldl max h ≤ c := by
  induction t generalizing h with
  | nil => exact hc
  | cons h' t ih =>
    exact ih (max_le hc (ht h' (List.mem_cons_self _ _)))
      (fun u hu => ht u (List.mem_cons_of_mem _ hu))

lemma foldl_min_le_init (t : List ℚ) (h : ℚ) : t.foldl min h ≤ h := by
  induction t generalizing h with
  | nil => exact le_refl h
  | cons h' t ih => exact le_trans (ih (min h h')) (min_le_left h h')

lemma foldl_min_le_of_mem {t : List ℚ} {h u : ℚ} (hu : u ∈ h :: t) :
    t.foldl min h ≤ u := by
  induction t generalizing h with
  | nil => rw [List.mem_singleton] at hu; exact hu.ge
  | cons h' t ih =>
    rcases List.mem_cons.mp hu with rfl | hu2
    · exact le_trans (foldl_min_le_init t (min u h')) (min_le_left u h')
    rcases List.mem_cons.mp hu2 with rfl | h3
    · exact le_trans (foldl_min_le_init t (min h u)) (min_le_right h u)
    · exact ih (List.mem_cons_of_mem _ h3)

lemma le_foldl_min {t : List ℚ} {h c : ℚ} (hc : c ≤ h) (ht : ∀ u ∈ t, c ≤ u) :
    c ≤ t.foldl min h := by
  induction t generalizing h with
  | nil => exact hc
  | cons h' t ih =>
    exact ih (le_min hc (ht h' (List.mem_cons_self _ _)))
      (fun u hu => ht u (List.mem_cons_of_mem _ hu))

/-! ### Evaluation of the ghost-reflection extension -/

lemma reflectExtend_neg_one (n : ℕ) (Y : List ℚ) :
    reflectExtend n Y (-1) = Y.getD 1 0 := by
  simp [reflectExtend]

lemma reflectExtend_coe (n : ℕ) (Y : List ℚ) (i : ℕ) (hi : i < n) :
    reflectExtend n Y (i : ℤ) = Y.getD i 0 := by
  have h1 : (i : ℤ) ≠ -1 := by omega
  have h2 : (i : ℤ) ≠ (n : ℤ) := by omega
  simp [reflectExtend, h1, h2]

lemma reflectExtend_top (n : ℕ) (Y : List ℚ) :
    reflectExtend n Y (n : ℤ) = Y.getD (n - 2) 0 := by
  have h1 : (n : ℤ) ≠ -1 := by omega
  simp [reflectExtend, h1]

end Goehring
namespace Goehring

/-- Claim C2: for every array `Y` of length `Nx ≥ 3` and spacing `deltax > 0`,
`disc_diffusion_term` computes the interior second difference
`(Y[i+1] - 2Y[i] + Y[i-1])/h²` at every node once the profile is extended by
ghost-reflection (`Y[-1] ↦ Y[1]`, `Y[Nx] ↦ Y[Nx-2]`); in particular the left
boundary value is `(Y[1] - 2Y[0] + Y[1])/h²` and the right boundary value is
`(Y[Nx-2] - 2Y[Nx-1] + Y[Nx-2])/h²`. -/
theorem disc_diffusion_term_reflective (k : Params) (Y : List ℚ)
    (hNx : 3 ≤ k.Nx) (hlen : Y.length = k.Nx) (hdx : 0 < k.deltax) :
    (∀ i : ℕ, i < k.Nx →
      disc_diffusion_term k Y i = specSecondDiff (reflectExtend k.Nx Y) k.deltax i ∧
      (1 ≤ i → i ≤ k.Nx - 2 →
        disc_diffusion_term k Y i
          = (Y.getD (i + 1) 0 - 2 * Y.getD i 0 + Y.getD (i - 1) 0) / k.deltax ^ 2)) ∧
    disc_diffusion_term k Y 0
      = (Y.getD 1 0 - 2 * Y.getD 0 0 + Y.getD 1 0) / k.deltax ^ 2 ∧
    disc_diffusion_term k Y (k.Nx - 1)
      = (Y.getD (k.Nx - 2) 0 - 2 * Y.getD (k.Nx - 1) 0 + Y.getD (k.Nx - 2) 0)
          / k.deltax ^ 2 := by
  refine ⟨fun i hi => ?_, ?_, ?_⟩
  · constructor
    · unfold specSecondDiff
      rcases Nat.eq_zero_or_pos i with rfl | hipos
      · have e1 : ((0 : ℕ) : ℤ) + 1 = ((1 : ℕ) : ℤ) := by omega
        have e2 : ((0 : ℕ) : ℤ) - 1 = (-1 : ℤ) := by omega
        rw [e1, e2, reflectExtend_coe k.Nx Y 1 (by omega),
          reflectExtend_coe k.Nx Y 0 (by omega), reflectExtend_neg_one]
        simp [disc_diffusion_term]
      · rcases Nat.lt_or_ge i (k.Nx - 1) with hilt | hige
        · have e1 : ((i : ℕ) : ℤ) + 1 = ((i + 1 : ℕ) : ℤ) := by omega
          have e2 : ((i : ℕ) : ℤ) - 1 = ((i - 1 : ℕ) : ℤ) := by omega
          rw [e1, e2, reflectExtend_coe k.Nx Y (i + 1) (by omega),
            reflectExtend_coe k.Nx Y i (by omega),
            reflectExtend_coe k.Nx Y (i - 1) (by omega)]
          have hne0 : i ≠ 0 := by omega
          have hne1 : i ≠ k.Nx - 1 := by omega
          simp [disc_diffusion_term, hne0, hne1]
        · have hieq : i = k.Nx - 1 := by omega
          subst hieq
          have e1 : ((k.Nx - 1 : ℕ) : ℤ) + 1 = ((k.Nx : ℕ) : ℤ) := by omega
          have e2 : ((k.Nx - 1 : ℕ) : ℤ) - 1 = ((k.Nx - 2 : ℕ) : ℤ) := by omega
          rw [e1, e2, reflectExtend_top, reflectExtend_coe k.Nx Y (k.Nx - 1) (by omega),
            reflectExtend_coe k.Nx Y (k.Nx - 2) (by omega)]
          have hne0 : k.Nx - 1 ≠ 0 := by omega
          simp [disc_diffusion_term, hne0]
    · intro h1 h2
      have hne0 : i ≠ 0 := by omega
      have hne1 : i ≠ k.Nx - 1 := by omega
      simp [disc_diffusion_term, hne0, hne1]
  · simp [disc_diffusion_term]
  · have hne0 : k.Nx - 1 ≠ 0 := by omega
    simp [disc_diffusion_term, hne0]

/-- Witness for C2 at `testParams` and `Y = [1, 2, 4]`. -/
theorem disc_diffusion_term_reflective_witness :
    (3 ≤ testParams.Nx ∧ ([(1 : ℚ), 2, 4]).length = testParams.Nx ∧
      0 < testParams.deltax) ∧
    ((∀ i : ℕ, i < testParams.Nx →
      disc_diffusion_term testParams [1, 2, 4] i
          = specSecondDiff (reflectExtend testParams.Nx [1, 2, 4]) testParams.deltax i ∧
      (1 ≤ i → i ≤ testParams.Nx - 2 →
        disc_diffusion_term testParams [1, 2, 4] i
          = (([(1 : ℚ), 2, 4]).getD (i + 1) 0 - 2 * ([(1 : ℚ), 2, 4]).getD i 0
              + ([(1 : ℚ), 2, 4]).getD (i - 1) 0) / testParams.deltax ^ 2)) ∧
    disc_diffusion_term testParams [1, 2, 4] 0
      = (([(1 : ℚ), 2, 4]).getD 1 0 - 2 * ([(1 : ℚ), 2, 4]).getD 0 0
          + ([(1 : ℚ), 2, 4]).getD 1 0) / testParams.deltax ^ 2 ∧
    disc_diffusion_term testParams [1, 2, 4] (testParams.Nx - 1)
      = (([(1 : ℚ), 2, 4]).getD (testParams.Nx - 2) 0
          - 2 * ([(1 : ℚ), 2, 4]).getD (testParams.Nx - 1) 0
          + ([(1 : ℚ), 2, 4]).getD (testParams.Nx - 2) 0) / testParams.deltax ^ 2) :=
  ⟨⟨by decide, by decide, by decide⟩,
    disc_diffusion_term_reflective testParams [1, 2, 4] (by decide) (by decide) (by decide)⟩

end Goehring
namespace Goehring

/-! ### The grid and the setup phase -/

lemma linspace_length (a b : ℚ) (n : ℕ) : (linspace a b n).length = n := by
  simp [linspace]

lemma linspace_getD (a b : ℚ) {n i : ℕ} (h : i < n) :
    (linspace a b n).getD i 0 = a + (i : ℚ) * (b - a) / ((n : ℚ) - 1) :=
  getD_ofFn_nat (fun j : ℕ => a + (j : ℚ) * (b - a) / ((n : ℚ) - 1)) h

/-- Inversion of a successful setup: the fields of the resolved `kvals`. -/
lemma run_model_setup_ok_fields (args : Overrides) (kv : Kvals)
    (hok : run_model_setup args = .ok kv) :
    kv.toBaseParams = mergeParams args ∧
    kv.X = linspace (mergeParams args).x0 (mergeParams args).xL (mergeParams args).Nx ∧
    kv.deltax = |kv.X.getD 1 0 - kv.X.getD 0 0| ∧
    kv.initial_condition = (match args.initial_condition with
      | some u0 => u0
      | none => ravelF (List.replicate (mergeParams args).Nx (1 / 2, 0))) := by
  simp only [run_model_setup] at hok
  split at hok
  · exact absurd hok (by simp)
  · split at hok
    · injection hok with h2
      subst h2
      exact ⟨rfl, rfl, rfl, rfl⟩
    · split at hok
      · exact absurd hok (by simp)
      · injection hok with h2
        subst h2
        exact ⟨rfl, rfl, rfl, rfl⟩

/-- A setup known to succeed returns exactly the value that
`(run_model_setup args).toOption.getD testKvals` denotes. -/
lemma setup_ok_of_isOk (args : Overrides) (h : (run_model_setup args).isOk = true) :
    run_model_setup args = .ok ((run_model_setup args).toOption.getD testKvals) := by
  cases hh : run_model_setup args with
  | error e =>
    rw [hh] at h
    simp [Except.isOk, Except.toBool] at h
  | ok kv =>
    rfl

lemma smallArgs_setup_isOk : (run_model_setup smallArgs).isOk = true := by
  have hpy : pyInt ((mergeParams smallArgs).points_per_second
      * |(mergeParams smallArgs).tL - (mergeParams smallArgs).t0|) = 2 := by
    norm_num [mergeParams, smallArgs, noOverrides, DEFAULT_PARAMETERS, pyInt]
  have hte : smallArgs.t_eval = none := rfl
  simp only [run_model_setup, hte]
  rw [if_neg (by decide), hpy, if_neg (by decide)]
  rfl

lemma invalidBounds_setup_isOk : (run_model_setup invalidBoundsArgs).isOk = true := by
  have hpy : pyInt ((mergeParams invalidBoundsArgs).points_per_second
      * |(mergeParams invalidBoundsArgs).tL - (mergeParams invalidBoundsArgs).t0|) = 0 := by
    norm_num [mergeParams, invalidBoundsArgs, noOverrides, DEFAULT_PARAMETERS, pyInt]
  have hte : invalidBoundsArgs.t_eval = none := rfl
  simp only [run_model_setup, hte]
  rw [if_neg (by decide), hpy, if_neg (by decide)]
  rfl

/-- Claim C8: when no explicit initial condition is supplied, the driver's default
initial condition is `[0.5, …, 0.5, 0, …, 0]`: `Nx` copies of `0.5` (the A
block) followed by `Nx` copies of `0` (the P block), total length `2·Nx`. -/
theorem run_model_default_initial_condition (args : Overrides)
    (hic : args.initial_condition = none) (kv : Kvals)
    (hok : run_model_setup args = .ok kv) :
    kv.initial_condition
      = List.replicate kv.Nx ((1 : ℚ) / 2) ++ List.replicate kv.Nx (0 : ℚ) ∧
    kv.initial_condition.length = 2 * kv.Nx := by
  obtain ⟨hbase, _, _, hicv⟩ := run_model_setup_ok_fields args kv hok
  have hNxe : kv.Nx = (mergeParams args).Nx := by
    rw [show kv.Nx = kv.toBaseParams.Nx from rfl, hbase]
  have hicv2 : kv.initial_condition
      = ravelF (List.replicate (mergeParams args).Nx (1 / 2, 0)) := by
    rw [hicv, hic]
  constructor
  · rw [hicv2, hNxe]
    simp [ravelF]
  · rw [hicv2, hNxe]
    simp [ravelF]
    ring

/-- Witness for C8 at `smallArgs`. -/
theorem run_model_default_initial_condition_witness :
    (smallArgs.initial_condition = none ∧ run_model_setup smallArgs = .ok smallKvals) ∧
    (smallKvals.initial_condition
        = List.replicate smallKvals.Nx ((1 : ℚ) / 2)
            ++ List.replicate smallKvals.Nx (0 : ℚ) ∧
      smallKvals.initial_condition.length = 2 * smallKvals.Nx) := by
  have hok : run_model_setup smallArgs = .ok smallKvals :=
    setup_ok_of_isOk smallArgs smallArgs_setup_isOk
  exact ⟨⟨rfl, hok⟩, run_model_default_initial_condition smallArgs rfl smallKvals hok⟩

/-- Claim C7: whenever the driver's setup phase completes on a configuration with
`Nx ≥ 3` and `xL > x0`, the grid it built has exactly `Nx` points, is
strictly increasing with uniform spacing `(xL - x0)/(Nx - 1)`, starts at
`x0`, ends at `xL`, and the derived spacing is `|X[1] - X[0]|`. -/
theorem run_model_grid (args : Overrides) (kv : Kvals)
    (hok : run_model_setup args = .ok kv)
    (hNx : 3 ≤ (mergeParams args).Nx)
    (hlt : (mergeParams args).x0 < (mergeParams args).xL) :
    kv.X.length = kv.Nx ∧
    kv.X.getD 0 0 = kv.x0 ∧
    kv.X.getD (kv.Nx - 1) 0 = kv.xL ∧
    (∀ i : ℕ, i + 1 < kv.Nx → kv.X.getD i 0 < kv.X.getD (i + 1) 0) ∧
    (∀ i : ℕ, i + 1 < kv.Nx →
      kv.X.getD (i + 1) 0 - kv.X.getD i 0 = (kv.xL - kv.x0) / ((kv.Nx : ℚ) - 1)) ∧
    kv.deltax = |kv.X.getD 1 0 - kv.X.getD 0 0| := by
  obtain ⟨hbase, hX, hdx, _⟩ := run_model_setup_ok_fields args kv hok
  set p := mergeParams args with hp
  have hNxe : kv.Nx = p.Nx := by
    rw [show kv.Nx = kv.toBaseParams.Nx from rfl, hbase]
  have hx0e : kv.x0 = p.x0 := by
    rw [show kv.x0 = kv.toBaseParams.x0 from rfl, hbase]
  have hxLe : kv.xL = p.xL := by
    rw [show kv.xL = kv.toBaseParams.xL from rfl, hbase]
  have hcast : (3 : ℚ) ≤ (p.Nx : ℚ) := by exact_mod_cast hNx
  have hq : ((p.Nx : ℚ) - 1) ≠ 0 := by linarith
  have hqpos : (0 : ℚ) < (p.Nx : ℚ) - 1 := by linarith
  have hstep : ∀ i : ℕ, i + 1 < p.Nx →
      (linspace p.x0 p.xL p.Nx).getD (i + 1) 0 - (linspace p.x0 p.xL p.Nx).getD i 0
        = (p.xL - p.x0) / ((p.Nx : ℚ) - 1) := by
    intro i hi
    rw [linspace_getD p.x0 p.xL hi, linspace_getD p.x0 p.xL (by omega)]
    push_cast
    ring
  rw [hX, hNxe, hx0e, hxLe]
  refine ⟨?_, ?_, ?_, ?_, ?_, ?_⟩
  · exact linspace_length p.x0 p.xL p.Nx
  · rw [linspace_getD p.x0 p.xL (show 0 < p.Nx by omega)]
    simp
  · rw [linspace_getD p.x0 p.xL (show p.Nx - 1 < p.Nx by omega)]
    have hc2 : ((p.Nx - 1 : ℕ) : ℚ) = (p.Nx : ℚ) - 1 := by
      have h1 : 1 ≤ p.Nx := by omega
      push_cast [h1]
      ring
    rw [hc2]
    field_simp
  · intro i hi
    have hd := hstep i hi
    have hpos : (0 : ℚ) < (p.xL - p.x0) / ((p.Nx : ℚ) - 1) :=
      div_pos (by linarith) hqpos
    linarith
  · intro i hi
    exact hstep i hi
  · rw [← hX]
    exact hdx

/-- Witness for C7 at `smallArgs`. -/
theorem run_model_grid_witness :
    (run_model_setup smallArgs = .ok smallKvals ∧ 3 ≤ (mergeParams smallArgs).Nx ∧
      (mergeParams smallArgs).x0 < (mergeParams smallArgs).xL) ∧
    (smallKvals.X.length = smallKvals.Nx ∧
      smallKvals.X.getD 0 0 = smallKvals.x0 ∧
      smallKvals.X.getD (smallKvals.Nx - 1) 0 = smallKvals.xL ∧
      (∀ i : ℕ, i + 1 < smallKvals.Nx →
        smallKvals.X.getD i 0 < smallKvals.X.getD (i + 1) 0) ∧
      (∀ i : ℕ, i + 1 < smallKvals.Nx →
        smallKvals.X.getD (i + 1) 0 - smallKvals.X.getD i 0
          = (smallKvals.xL - smallKvals.x0) / ((smallKvals.Nx : ℚ) - 1)) ∧
      smallKvals.deltax = |smallKvals.X.getD 1 0 - smallKvals.X.getD 0 0|) := by
  have hok : run_model_setup smallArgs = .ok smallKvals :=
    setup_ok_of_isOk smallArgs smallArgs_setup_isOk
  exact ⟨⟨hok, by decide,
      by norm_num [mergeParams, smallArgs, noOverrides, DEFAULT_PARAMETERS]⟩,
    run_model_grid smallArgs smallKvals hok (by decide)
      (by norm_num [mergeParams, smallArgs, noOverrides, DEFAULT_PARAMETERS])⟩

/-- Counterexample to C9: `invalidBoundsArgs` violates both domain-bound
invariants (`xL ≤ x0` and `tL ≤ t0`), yet the driver's setup phase completes
without raising any configuration error. -/
theorem run_model_no_config_error :
    (mergeParams invalidBoundsArgs).xL ≤ (mergeParams invalidBoundsArgs).x0 ∧
    (mergeParams invalidBoundsArgs).tL ≤ (mergeParams invalidBoundsArgs).t0 ∧
    (run_model_setup invalidBoundsArgs).isOk = true :=
  ⟨le_refl 0, le_refl 0, invalidBounds_setup_isOk⟩

/-- Claim C9 (amended): `run_model` performs no configuration validation at entry
and raises no `ConfigurationError`.  The complete inventory of entry-time
failures of the setup phase is: an index error computing the spacing when the
merged `Nx < 2`, and a value error from `np.linspace` when `t_eval` is absent
and the derived output sample count `int(points_per_second·|tL - t0|)` is
negative.  In every other case — including invalid bounds `xL ≤ x0` or
`tL ≤ t0` — the setup phase completes successfully. -/
theorem run_model_setup_no_validation (args : Overrides) :
    ((mergeParams args).Nx < 2 → run_model_setup args = .error .indexError) ∧
    (2 ≤ (mergeParams args).Nx → args.t_eval = none →
      0 ≤ pyInt ((mergeParams args).points_per_second
          * |(mergeParams args).tL - (mergeParams args).t0|) →
      (run_model_setup args).isOk = true) ∧
    (2 ≤ (mergeParams args).Nx → args.t_eval = none →
      pyInt ((mergeParams args).points_per_second
          * |(mergeParams args).tL - (mergeParams args).t0|) < 0 →
      run_model_setup args = .error .valueError) ∧
    (∀ te : List ℚ, 2 ≤ (mergeParams args).Nx → args.t_eval = some te →
      (run_model_setup args).isOk = true) := by
  refine ⟨?_, ?_, ?_, ?_⟩
  · intro h
    simp only [run_model_setup]
    rw [if_pos h]
  · intro h hte hnum
    simp only [run_model_setup, hte]
    rw [if_neg (by omega), if_neg (not_lt.mpr hnum)]
    rfl
  · intro h hte hnum
    simp only [run_model_setup, hte]
    rw [if_neg (by omega), if_pos hnum]
  · intro te h hte
    simp only [run_model_setup, hte]
    rw [if_neg (by omega)]
    rfl

/-- Witness for C9's amended theorem at `invalidBoundsArgs`. -/
theorem run_model_setup_no_validation_witness :
    (2 ≤ (mergeParams invalidBoundsArgs).Nx ∧ invalidBoundsArgs.t_eval = none ∧
      0 ≤ pyInt ((mergeParams invalidBoundsArgs).points_per_second
        * |(mergeParams invalidBoundsArgs).tL - (mergeParams invalidBoundsArgs).t0|)) ∧
    (run_model_setup invalidBoundsArgs).isOk = true := by
  have hnum : 0 ≤ pyInt ((mergeParams invalidBoundsArgs).points_per_second
      * |(mergeParams invalidBoundsArgs).tL - (mergeParams invalidBoundsArgs).t0|) := by
    norm_num [mergeParams, invalidBoundsArgs, noOverrides, DEFAULT_PARAMETERS, pyInt]
  exact ⟨⟨by decide, rfl, hnum⟩,
    (run_model_setup_no_validation invalidBoundsArgs).2.1 (by decide) rfl hnum⟩

end Goehring
namespace Goehring

/-! ### The frame property of the driver's dictionary operations -/

lemma getD_set_ne {α : Type} (l : List α) (m i : ℕ) (v d : α) (h : m ≠ i) :
    (l.set m v).getD i d = l.getD i d := by
  simp [List.getD_eq_getD_get?, List.get?_eq_getElem?, List.getElem?_set_ne h]

lemma getD_append_set_set {α : Type} (s : List α) (p q d3 d4 : α) (i : ℕ)
    (hi : i < s.length) (dflt : α) :
    ((((s ++ [p]) ++ [q]).set (s ++ [p]).length d3).set (s ++ [p]).length d4).getD i dflt
      = s.getD i dflt := by
  have hne : (s ++ [p]).length ≠ i := by simp; omega
  rw [getD_set_ne _ _ _ _ _ hne, getD_set_ne _ _ _ _ _ hne]
  rw [List.getD_append _ _ _ _ (by simp; omega), List.getD_append _ _ _ _ hi]

/-- Claim C10: the dictionary operations of `run_model` never mutate the defaults
dict or the caller's args dict: both addresses hold exactly the entries they
held before the call (the merge and the derived `kvals` are fresh
dictionaries; the two in-place writes target only the fresh `kvals`). -/
theorem run_model_dictOps_frame {α : Type} (store : List (List (String × α)))
    (defaultsAddr argsAddr : ℕ) (xv dxv tev icv : α)
    (hd : defaultsAddr < store.length) (ha : argsAddr < store.length) :
    ((run_model_dictOps store defaultsAddr argsAddr xv dxv tev icv).1.getD defaultsAddr []
        = store.getD defaultsAddr []) ∧
    ((run_model_dictOps store defaultsAddr argsAddr xv dxv tev icv).1.getD argsAddr []
        = store.getD argsAddr []) :=
  ⟨getD_append_set_set store _ _ _ _ defaultsAddr hd [],
   getD_append_set_set store _ _ _ _ argsAddr ha []⟩

/-- Witness for C10 at the concrete two-dictionary store `storeC10`. -/
theorem run_model_dictOps_frame_witness :
    ((0 : ℕ) < storeC10.length ∧ (1 : ℕ) < storeC10.length) ∧
    ((run_model_dictOps storeC10 0 1 0 0 0 0).1.getD 0 [] = storeC10.getD 0 [] ∧
     (run_model_dictOps storeC10 0 1 0 0 0 0).1.getD 1 [] = storeC10.getD 1 []) :=
  ⟨⟨by decide, by decide⟩,
    run_model_dictOps_frame storeC10 0 1 0 0 0 0 (by decide) (by decide)⟩

end Goehring
namespace Goehring

/-- Claim C1: the RHS assembler raises the divergence error exactly when a state
component leaves `[-100, 100]`: on a state vector of length `2·Nx`
containing a component equal to `150` or `-150` it raises, when every
component lies in `[-100, 100]` it returns normally, and in general it
raises the divergence error iff some component is `< -100` or `> 100`. -/
theorem odefunc_divergence_check (k : Kvals) (t : ℚ) (U : List ℚ)
    (hlen : U.length = 2 * k.Nx) (hNx : 1 ≤ k.Nx) :
    (((150 : ℚ) ∈ U ∨ (-150 : ℚ) ∈ U) → odefunc t U k = .error .divergence) ∧
    ((∀ u ∈ U, -100 ≤ u ∧ u ≤ 100) → ∃ V, odefunc t U k = .ok V) ∧
    (odefunc t U k = .error .divergence ↔ ∃ u ∈ U, u < -100 ∨ 100 < u) := by
  cases U with
  | nil => simp at hlen; omega
  | cons h tU =>
    have hforward : (∃ u ∈ h :: tU, u < -100 ∨ 100 < u) →
        odefunc t (h :: tU) k = .error .divergence := by
      rintro ⟨u, hu, hcase⟩
      simp only [odefunc, pyMin, pyMax]
      rw [if_neg (not_not_intro hlen), if_pos ?_]
      rcases hcase with hlt | hgt
      · exact Or.inl (lt_of_le_of_lt (foldl_min_le_of_mem hu) hlt)
      · exact Or.inr (lt_of_lt_of_le hgt (le_foldl_max_of_mem hu))
    have hsafe : (∀ u ∈ h :: tU, -100 ≤ u ∧ u ≤ 100) →
        ∃ V, odefunc t (h :: tU) k = .ok V := by
      intro hall
      simp only [odefunc, pyMin, pyMax]
      rw [if_neg (not_not_intro hlen), if_neg ?_]
      · exact ⟨_, rfl⟩
      · push_neg
        constructor
        · exact le_foldl_min (hall h (List.mem_cons_self h tU)).1
            (fun u hu => (hall u (List.mem_cons_of_mem h hu)).1)
        · exact foldl_max_le (hall h (List.mem_cons_self h tU)).2
            (fun u hu => (hall u (List.mem_cons_of_mem h hu)).2)
    refine ⟨?_, hsafe, ?_, hforward⟩
    · intro hmem
      apply hforward
      rcases hmem with h150 | h150
      · exact ⟨150, h150, Or.inr (by norm_num)⟩
      · exact ⟨-150, h150, Or.inl (by norm_num)⟩
    · intro herr
      by_contra hno
      push_neg at hno
      obtain ⟨V, hV⟩ := hsafe (fun u hu => ⟨(hno u hu).1, (hno u hu).2⟩)
      rw [hV] at herr
      exact Except.noConfusion herr

/-- Witness for C1 at `testKvals` and the state `[150, 0, 0, 0, 0, 0]`. -/
theorem odefunc_divergence_check_witness :
    (([(150 : ℚ), 0, 0, 0, 0, 0]).length = 2 * testKvals.Nx ∧ 1 ≤ testKvals.Nx) ∧
    ((((150 : ℚ) ∈ [(150 : ℚ), 0, 0, 0, 0, 0] ∨ (-150 : ℚ) ∈ [(150 : ℚ), 0, 0, 0, 0, 0]) →
        odefunc 0 [(150 : ℚ), 0, 0, 0, 0, 0] testKvals = .error .divergence) ∧
      ((∀ u ∈ [(150 : ℚ), 0, 0, 0, 0, 0], -100 ≤ u ∧ u ≤ 100) →
        ∃ V, odefunc 0 [(150 : ℚ), 0, 0, 0, 0, 0] testKvals = .ok V) ∧
      (odefunc 0 [(150 : ℚ), 0, 0, 0, 0, 0] testKvals = .error .divergence ↔
        ∃ u ∈ [(150 : ℚ), 0, 0, 0, 0, 0], u < -100 ∨ 100 < u)) :=
  ⟨⟨by decide, by decide⟩,
    odefunc_divergence_check testKvals 0 [(150 : ℚ), 0, 0, 0, 0, 0] (by decide) (by decide)⟩

end Goehring
namespace Goehring

/-! ### Inversion of a successful RHS evaluation -/

lemma odefunc_ok_elim (k : Kvals) (t : ℚ) (U V : List ℚ)
    (hok : odefunc t U k = .ok V) :
    V = List.ofFn (fun i : Fin k.Nx =>
          dudtA_node k t (U.take k.Nx) (U.drop k.Nx)
            (k.A_cyto k.toParams (U.take k.Nx)) i)
        ++ List.ofFn (fun i : Fin k.Nx =>
          dudtP_node k t (U.take k.Nx) (U.drop k.Nx)
            (k.P_cyto k.toParams (U.drop k.Nx)) i) := by
  simp only [odefunc] at hok
  split at hok
  · exact absurd hok (by simp)
  · split at hok
    · split at hok
      · exact absurd hok (by simp)
      · injection hok with h2
        exact h2.symm
    · exact absurd hok (by simp)

lemma getD_blockA (k : Kvals) (gA gP : ℕ → ℚ) {i : ℕ} (hi : i < k.Nx) :
    (List.ofFn (fun j : Fin k.Nx => gA j) ++ List.ofFn (fun j : Fin k.Nx => gP j)).getD i 0
      = gA i := by
  rw [List.getD_append _ _ _ _ (by simpa using hi)]
  exact getD_ofFn_nat gA hi

lemma getD_blockP (k : Kvals) (gA gP : ℕ → ℚ) {i : ℕ} (hi : i < k.Nx) :
    (List.ofFn (fun j : Fin k.Nx => gA j)
        ++ List.ofFn (fun j : Fin k.Nx => gP j)).getD (k.Nx + i) 0
      = gP i := by
  rw [List.getD_append_right _ _ _ _ (by simp)]
  simp only [List.length_ofFn, Nat.add_sub_cancel_left]
  exact getD_ofFn_nat gP hi

end Goehring
namespace Goehring

/-- Claim C3: in every successful RHS evaluation the advective contribution at each
node `i ∈ [0, Nx-2]` (both species) is the forward difference
`(f(i+1) - f(i))/h` of the flux `f(j) = v(X[j],t)·Y[j]`, and at the right
boundary node `Nx-1` it is the manual reflected formula
`-[(-v(X[Nx-2],t)·Y[Nx-2]) - v(X[Nx-1],t)·Y[Nx-1]]/h`. -/
theorem odefunc_advection (k : Kvals) (t : ℚ) (U V : List ℚ)
    (hNx : 3 ≤ k.Nx) (hok : odefunc t U k = .ok V) :
    (∀ i : ℕ, i ≤ k.Nx - 2 →
      V.getD i 0
        = k.D_A * disc_diffusion_term k.toParams (U.take k.Nx) i
          - (k.v_func k.toParams (k.X.getD (i + 1) 0) t * (U.take k.Nx).getD (i + 1) 0
              - k.v_func k.toParams (k.X.getD i 0) t * (U.take k.Nx).getD i 0) / k.deltax
          + R_A k.toParams (U.take k.Nx) (U.drop k.Nx)
              (k.A_cyto k.toParams (U.take k.Nx)) t i ∧
      V.getD (k.Nx + i) 0
        = k.D_P * disc_diffusion_term k.toParams (U.drop k.Nx) i
          - (k.v_func k.toParams (k.X.getD (i + 1) 0) t * (U.drop k.Nx).getD (i + 1) 0
              - k.v_func k.toParams (k.X.getD i 0) t * (U.drop k.Nx).getD i 0) / k.deltax
          + R_P k.toParams (U.take k.Nx) (U.drop k.Nx)
              (k.P_cyto k.toParams (U.drop k.Nx)) t i) ∧
    (V.getD (k.Nx - 1) 0
        = k.D_A * disc_diffusion_term k.toParams (U.take k.Nx) (k.Nx - 1)
          - (-(k.v_func k.toParams (k.X.getD (k.Nx - 2) 0) t)
                * (U.take k.Nx).getD (k.Nx - 2) 0
              - k.v_func k.toParams (k.X.getD (k.Nx - 1) 0) t
                * (U.take k.Nx).getD (k.Nx - 1) 0) / k.deltax
          + R_A k.toParams (U.take k.Nx) (U.drop k.Nx)
              (k.A_cyto k.toParams (U.take k.Nx)) t (k.Nx - 1) ∧
      V.getD (2 * k.Nx - 1) 0
        = k.D_P * disc_diffusion_term k.toParams (U.drop k.Nx) (k.Nx - 1)
          - (-(k.v_func k.toParams (k.X.getD (k.Nx - 2) 0) t)
                * (U.drop k.Nx).getD (k.Nx - 2) 0
              - k.v_func k.toParams (k.X.getD (k.Nx - 1) 0) t
                * (U.drop k.Nx).getD (k.Nx - 1) 0) / k.deltax
          + R_P k.toParams (U.take k.Nx) (U.drop k.Nx)
              (k.P_cyto k.toParams (U.drop k.Nx)) t (k.Nx - 1)) := by
  have hV := odefunc_ok_elim k t U V hok
  subst hV
  constructor
  · intro i hi
    have hilt : i < k.Nx := by omega
    have hne : ¬ (i = k.Nx - 1) := by omega
    constructor
    · rw [getD_blockA k _ _ hilt]
      simp only [dudtA_node, if_neg hne, disc_spatial_derivative]
    · rw [getD_blockP k _ _ hilt]
      simp only [dudtP_node, if_neg hne, disc_spatial_derivative]
  · have hb : k.Nx - 1 < k.Nx := by omega
    constructor
    · rw [getD_blockA k _ _ hb]
      simp only [dudtA_node, if_pos rfl, if_true]
    · have h2 : 2 * k.Nx - 1 = k.Nx + (k.Nx - 1) := by omega
      rw [h2, getD_blockP k _ _ hb]
      simp only [dudtP_node, if_pos rfl, if_true]

/-- Witness for C3 at `intKvals` and the state `[1, 2, 3, 4, 5, 6]`. -/
theorem odefunc_advection_witness :
    (3 ≤ intKvals.Nx ∧ odefunc 0 [1, 2, 3, 4, 5, 6] intKvals = .ok Vint) ∧
    ((∀ i : ℕ, i ≤ intKvals.Nx - 2 →
      Vint.getD i 0
        = intKvals.D_A * disc_diffusion_term intKvals.toParams
              (([(1 : ℚ), 2, 3, 4, 5, 6]).take intKvals.Nx) i
          - (intKvals.v_func intKvals.toParams (intKvals.X.getD (i + 1) 0) 0
                * (([(1 : ℚ), 2, 3, 4, 5, 6]).take intKvals.Nx).getD (i + 1) 0
              - intKvals.v_func intKvals.toParams (intKvals.X.getD i 0) 0
                * (([(1 : ℚ), 2, 3, 4, 5, 6]).take intKvals.Nx).getD i 0) / intKvals.deltax
          + R_A intKvals.toParams (([(1 : ℚ), 2, 3, 4, 5, 6]).take intKvals.Nx)
              (([(1 : ℚ), 2, 3, 4, 5, 6]).drop intKvals.Nx)
              (intKvals.A_cyto intKvals.toParams
                (([(1 : ℚ), 2, 3, 4, 5, 6]).take intKvals.Nx)) 0 i ∧
      Vint.getD (intKvals.Nx + i) 0
        = intKvals.D_P * disc_diffusion_term intKvals.toParams
              (([(1 : ℚ), 2, 3, 4, 5, 6]).drop intKvals.Nx) i
          - (intKvals.v_func intKvals.toParams (intKvals.X.getD (i + 1) 0) 0
                * (([(1 : ℚ), 2, 3, 4, 5, 6]).drop intKvals.Nx).getD (i + 1) 0
              - intKvals.v_func intKvals.toParams (intKvals.X.getD i 0) 0
                * (([(1 : ℚ), 2, 3, 4, 5, 6]).drop intKvals.Nx).getD i 0) / intKvals.deltax
          + R_P intKvals.toParams (([(1 : ℚ), 2, 3, 4, 5, 6]).take intKvals.Nx)
              (([(1 : ℚ), 2, 3, 4, 5, 6]).drop intKvals.Nx)
              (intKvals.P_cyto intKvals.toParams
                (([(1 : ℚ), 2, 3, 4, 5, 6]).drop intKvals.Nx)) 0 i) ∧
    (Vint.getD (intKvals.Nx - 1) 0
        = intKvals.D_A * disc_diffusion_term intKvals.toParams
              (([(1 : ℚ), 2, 3, 4, 5, 6]).take intKvals.Nx) (intKvals.Nx - 1)
          - (-(intKvals.v_func intKvals.toParams (intKvals.X.getD (intKvals.Nx - 2) 0) 0)
                * (([(1 : ℚ), 2, 3, 4, 5, 6]).take intKvals.Nx).getD (intKvals.Nx - 2) 0
              - intKvals.v_func intKvals.toParams (intKvals.X.getD (intKvals.Nx - 1) 0) 0
                * (([(1 : ℚ), 2, 3, 4, 5, 6]).take intKvals.Nx).getD (intKvals.Nx - 1) 0)
              / intKvals.deltax
          + R_A intKvals.toParams (([(1 : ℚ), 2, 3, 4, 5, 6]).take intKvals.Nx)
              (([(1 : ℚ), 2, 3, 4, 5, 6]).drop intKvals.Nx)
              (intKvals.A_cyto intKvals.toParams
                (([(1 : ℚ), 2, 3, 4, 5, 6]).take intKvals.Nx)) 0 (intKvals.Nx - 1) ∧
      Vint.getD (2 * intKvals.Nx - 1) 0
        = intKvals.D_P * disc_diffusion_term intKvals.toParams
              (([(1 : ℚ), 2, 3, 4, 5, 6]).drop intKvals.Nx) (intKvals.Nx - 1)
          - (-(intKvals.v_func intKvals.toParams (intKvals.X.getD (intKvals.Nx - 2) 0) 0)
                * (([(1 : ℚ), 2, 3, 4, 5, 6]).drop intKvals.Nx).getD (intKvals.Nx - 2) 0
              - intKvals.v_func intKvals.toParams (intKvals.X.getD (intKvals.Nx - 1) 0) 0
                * (([(1 : ℚ), 2, 3, 4, 5, 6]).drop intKvals.Nx).getD (intKvals.Nx - 1) 0)
              / intKvals.deltax
          + R_P intKvals.toParams (([(1 : ℚ), 2, 3, 4, 5, 6]).take intKvals.Nx)
              (([(1 : ℚ), 2, 3, 4, 5, 6]).drop intKvals.Nx)
              (intKvals.P_cyto intKvals.toParams
                (([(1 : ℚ), 2, 3, 4, 5, 6]).drop intKvals.Nx)) 0 (intKvals.Nx - 1))) :=
  ⟨⟨by decide, rfl⟩,
    odefunc_advection intKvals 0 [1, 2, 3, 4, 5, 6] Vint (by decide) rfl⟩

end Goehring
namespace Goehring

lemma dudtA_node_eq (k : Kvals) (t : ℚ) (A P : List ℚ) (acr : ℚ) (i : ℕ) :
    dudtA_node k t A P acr i
      = k.D_A * disc_diffusion_term k.toParams A i - advect_term k t A i
        + R_A k.toParams A P acr t i := by
  by_cases h : i = k.Nx - 1
  · subst h
    simp only [dudtA_node, advect_term, if_pos rfl, if_true]
  · simp only [dudtA_node, advect_term, if_neg h]

lemma dudtP_node_eq (k : Kvals) (t : ℚ) (A P : List ℚ) (pcr : ℚ) (i : ℕ) :
    dudtP_node k t A P pcr i
      = k.D_P * disc_diffusion_term k.toParams P i - advect_term k t P i
        + R_P k.toParams A P pcr t i := by
  by_cases h : i = k.Nx - 1
  · subst h
    simp only [dudtP_node, advect_term, if_pos rfl, if_true]
  · simp only [dudtP_node, advect_term, if_neg h]

/-- Claim C5: in every successful RHS evaluation the reaction contribution at node
`i` is `k_onA·A_cyto_r - k_offA·A[i] - k_AP·P[i]^alpha·A[i]` for A and
`k_onP·P_cyto_r - k_offP·P[i] - k_PA·A[i]^beta·P[i]` for P, where the
scalars `A_cyto_r = A_cyto(kvals, A)` and `P_cyto_r = P_cyto(kvals, P)` are
resolved once per evaluation: the same two scalar expressions appear at
every node. -/
theorem odefunc_reaction (k : Kvals) (t : ℚ) (U V : List ℚ)
    (hNx : 1 ≤ k.Nx) (hok : odefunc t U k = .ok V) :
    ∀ i : ℕ, i < k.Nx →
      V.getD i 0
        = k.D_A * disc_diffusion_term k.toParams (U.take k.Nx) i
          - advect_term k t (U.take k.Nx) i
          + (k.k_onA * k.A_cyto k.toParams (U.take k.Nx)
              - k.k_offA * (U.take k.Nx).getD i 0
              - k.k_AP * ((U.drop k.Nx).getD i 0) ^ k.alpha
                  * (U.take k.Nx).getD i 0) ∧
      V.getD (k.Nx + i) 0
        = k.D_P * disc_diffusion_term k.toParams (U.drop k.Nx) i
          - advect_term k t (U.drop k.Nx) i
          + (k.k_onP * k.P_cyto k.toParams (U.drop k.Nx)
              - k.k_offP * (U.drop k.Nx).getD i 0
              - k.k_PA * ((U.take k.Nx).getD i 0) ^ k.beta
                  * (U.drop k.Nx).getD i 0) := by
  have hV := odefunc_ok_elim k t U V hok
  subst hV
  intro i hi
  constructor
  · rw [getD_blockA k _ _ hi, dudtA_node_eq]
    simp only [R_A]
  · rw [getD_blockP k _ _ hi, dudtP_node_eq]
    simp only [R_P]

/-- Witness for C5 at `intKvals` and the state `[1, 2, 3, 4, 5, 6]`. -/
theorem odefunc_reaction_witness :
    (1 ≤ intKvals.Nx ∧ odefunc 0 [1, 2, 3, 4, 5, 6] intKvals = .ok Vint) ∧
    (∀ i : ℕ, i < intKvals.Nx →
      Vint.getD i 0
        = intKvals.D_A * disc_diffusion_term intKvals.toParams
              (([(1 : ℚ), 2, 3, 4, 5, 6]).take intKvals.Nx) i
          - advect_term intKvals 0 (([(1 : ℚ), 2, 3, 4, 5, 6]).take intKvals.Nx) i
          + (intKvals.k_onA * intKvals.A_cyto intKvals.toParams
                (([(1 : ℚ), 2, 3, 4, 5, 6]).take intKvals.Nx)
              - intKvals.k_offA
                  * (([(1 : ℚ), 2, 3, 4, 5, 6]).take intKvals.Nx).getD i 0
              - intKvals.k_AP
                  * ((([(1 : ℚ), 2, 3, 4, 5, 6]).drop intKvals.Nx).getD i 0)
                      ^ intKvals.alpha
                  * (([(1 : ℚ), 2, 3, 4, 5, 6]).take intKvals.Nx).getD i 0) ∧
      Vint.getD (intKvals.Nx + i) 0
        = intKvals.D_P * disc_diffusion_term intKvals.toParams
              (([(1 : ℚ), 2, 3, 4, 5, 6]).drop intKvals.Nx) i
          - advect_term intKvals 0 (([(1 : ℚ), 2, 3, 4, 5, 6]).drop intKvals.Nx) i
          + (intKvals.k_onP * intKvals.P_cyto intKvals.toParams
                (([(1 : ℚ), 2, 3, 4, 5, 6]).drop intKvals.Nx)
              - intKvals.k_offP
                  * (([(1 : ℚ), 2, 3, 4, 5, 6]).drop intKvals.Nx).getD i 0
              - intKvals.k_PA
                  * ((([(1 : ℚ), 2, 3, 4, 5, 6]).take intKvals.Nx).getD i 0)
                      ^ intKvals.beta
                  * (([(1 : ℚ), 2, 3, 4, 5, 6]).drop intKvals.Nx).getD i 0)) :=
  ⟨⟨by decide, rfl⟩,
    odefunc_reaction intKvals 0 [1, 2, 3, 4, 5, 6] Vint (by decide) rfl⟩

end Goehring
namespace Goehring

lemma odefunc_kvalsC4_eval :
    odefunc 0 [1, 0, 0, 0, 0, 0] kvalsC4 = .ok [-2, 1, 0, 0, 0, 0] := by
  rw [odefunc]
  norm_num [pyMin, pyMax, min_def, max_def, kvalsC4, baseC4, DEFAULT_PARAMETERS,
    List.ofFn_succ, dudtA_node, dudtP_node, disc_diffusion_term,
    disc_spatial_derivative, R_A, R_P]

/-- Counterexample to C4 as stated: with every reaction rate zero and the
zero velocity field, the plain componentwise sum of the RHS vector is *not*
zero — at the state `A = [1,0,0]`, `P = [0,0,0]` the RHS is
`[-2, 1, 0, 0, 0, 0]`, which sums to `-1`. -/
theorem odefunc_mass_not_conserved :
    kvalsC4.k_onA = 0 ∧ kvalsC4.k_onP = 0 ∧ kvalsC4.k_offA = 0 ∧
    kvalsC4.k_offP = 0 ∧ kvalsC4.k_AP = 0 ∧ kvalsC4.k_PA = 0 ∧
    kvalsC4.v_func = (fun _ _ _ => 0) ∧
    odefunc 0 [1, 0, 0, 0, 0, 0] kvalsC4 = .ok [-2, 1, 0, 0, 0, 0] ∧
    ([(-2 : ℚ), 1, 0, 0, 0, 0]).sum ≠ 0 :=
  ⟨rfl, rfl, rfl, rfl, rfl, rfl, rfl, odefunc_kvalsC4_eval, by norm_num⟩

/-- The trapezoid-weighted sum of the reflective diffusion stencil
telescopes to zero. -/
lemma trap_diffusion_sum (p : Params) (Y : List ℚ) (hNx : 3 ≤ p.Nx) :
    (∑ i ∈ Finset.range p.Nx, disc_diffusion_term p Y i)
      - disc_diffusion_term p Y 0 / 2 - disc_diffusion_term p Y (p.Nx - 1) / 2 = 0 := by
  obtain ⟨K, hK⟩ : ∃ K, p.Nx = K + 2 := ⟨p.Nx - 2, by omega⟩
  have hK1 : 1 ≤ K := by omega
  have tele : ∑ i ∈ Finset.range K, disc_diffusion_term p Y (i + 1)
      = (Y.getD (K + 1) 0 - Y.getD K 0) / p.deltax ^ 2
        - (Y.getD 1 0 - Y.getD 0 0) / p.deltax ^ 2 := by
    rw [← Finset.sum_range_sub (fun j => (Y.getD (j + 1) 0 - Y.getD j 0) / p.deltax ^ 2) K]
    apply Finset.sum_congr rfl
    intro i hi
    have hiK : i < K := Finset.mem_range.mp hi
    have h0 : i + 1 ≠ 0 := by omega
    have h1 : i + 1 ≠ p.Nx - 1 := by omega
    simp only [disc_diffusion_term, if_neg h0, if_neg h1]
    have e1 : i + 1 + 1 = i + 2 := by omega
    have e2 : i + 1 - 1 = i := by omega
    rw [e1, e2, div_sub_div_same]
    ring_nf
  have hf0 : disc_diffusion_term p Y 0
      = (Y.getD 1 0 - 2 * Y.getD 0 0 + Y.getD 1 0) / p.deltax ^ 2 := by
    simp [disc_diffusion_term]
  have hfK : disc_diffusion_term p Y (K + 1)
      = (Y.getD K 0 - 2 * Y.getD (K + 1) 0 + Y.getD K 0) / p.deltax ^ 2 := by
    have h0 : K + 1 ≠ 0 := by omega
    have h1 : K + 1 = p.Nx - 1 := by omega
    have hknx : p.Nx - 2 = K := by omega
    simp only [disc_diffusion_term, if_neg h0, if_pos h1, ← h1, hknx, if_true]
  have hsplit : ∑ i ∈ Finset.range p.Nx, disc_diffusion_term p Y i
      = disc_diffusion_term p Y 0
        + (∑ i ∈ Finset.range K, disc_diffusion_term p Y (i + 1))
        + disc_diffusion_term p Y (K + 1) := by
    rw [hK, Finset.sum_range_succ, Finset.sum_range_succ']
    ring
  have hNx1 : p.Nx - 1 = K + 1 := by omega
  rw [hsplit, hNx1, tele, hf0, hfK]
  ring

/-- Claim C4 (amended): with all six reaction rate constants zero and the zero
velocity field, the RHS assembler conserves the *trapezoid-weighted*
discrete mass (weight 1/2 at the two boundary nodes of each block): the
trapezoid-weighted sums of the A block and the P block of the returned
vector add to zero.  The plain componentwise sum is in general nonzero. -/
theorem odefunc_trap_mass_conserved (k : Kvals) (t : ℚ) (U V : List ℚ)
    (hNx : 3 ≤ k.Nx)
    (h1 : k.k_onA = 0) (h2 : k.k_onP = 0) (h3 : k.k_offA = 0) (h4 : k.k_offP = 0)
    (h5 : k.k_AP = 0) (h6 : k.k_PA = 0)
    (hv : k.v_func = fun _ _ _ => 0)
    (hok : odefunc t U k = .ok V) :
    trapWeightedSum (V.take k.Nx) + trapWeightedSum (V.drop k.Nx) = 0 := by
  have hV := odefunc_ok_elim k t U V hok
  subst hV
  have hadv : ∀ Y : List ℚ, ∀ i : ℕ, advect_term k t Y i = 0 := by
    intro Y i
    unfold advect_term
    split
    · rw [hv]
      simp
    · rw [hv]
      simp [disc_spatial_derivative]
  have hRA : ∀ (A P : List ℚ) (acr : ℚ) (i : ℕ), R_A k.toParams A P acr t i = 0 := by
    intro A P acr i
    show k.k_onA * acr - k.k_offA * A.getD i 0
      - k.k_AP * (P.getD i 0) ^ k.alpha * A.getD i 0 = 0
    rw [h1, h3, h5]
    ring
  have hRP : ∀ (A P : List ℚ) (pcr : ℚ) (i : ℕ), R_P k.toParams A P pcr t i = 0 := by
    intro A P pcr i
    show k.k_onP * pcr - k.k_offP * P.getD i 0
      - k.k_PA * (A.getD i 0) ^ k.beta * P.getD i 0 = 0
    rw [h2, h4, h6]
    ring
  have key : ∀ (D : ℚ) (W : List ℚ) (g : ℕ → ℚ),
      (∀ i : ℕ, g i = D * disc_diffusion_term k.toParams W i) →
      trapWeightedSum (List.ofFn (fun j : Fin k.Nx => g j)) = 0 := by
    intro D W g hg
    have hlen : (List.ofFn (fun j : Fin k.Nx => g j)).length = k.Nx := by simp
    unfold trapWeightedSum
    rw [hlen, sum_ofFn_nat, getD_ofFn_nat g (show 0 < k.Nx by omega),
      getD_ofFn_nat g (show k.Nx - 1 < k.Nx by omega)]
    have hsum : ∑ i ∈ Finset.range k.Nx, g i
        = D * ∑ i ∈ Finset.range k.Nx, disc_diffusion_term k.toParams W i := by
      rw [Finset.mul_sum]
      exact Finset.sum_congr rfl (fun i _ => hg i)
    rw [hsum, hg 0, hg (k.Nx - 1)]
    have := trap_diffusion_sum k.toParams W hNx
    calc D * (∑ i ∈ Finset.range k.Nx, disc_diffusion_term k.toParams W i)
          - D * disc_diffusion_term k.toParams W 0 / 2
          - D * disc_diffusion_term k.toParams W (k.Nx - 1) / 2
        = D * ((∑ i ∈ Finset.range k.Nx, disc_diffusion_term k.toParams W i)
            - disc_diffusion_term k.toParams W 0 / 2
            - disc_diffusion_term k.toParams W (k.Nx - 1) / 2) := by ring
      _ = 0 := by rw [this]; ring
  rw [List.take_left' (by simp), List.drop_left' (by simp)]
  rw [key k.D_A (U.take k.Nx) _ (fun i => by
        rw [dudtA_node_eq, hadv, hRA]; ring),
    key k.D_P (U.drop k.Nx) _ (fun i => by
        rw [dudtP_node_eq, hadv, hRP]; ring)]
  ring

/-- Witness for C4's amended theorem at `kvalsC4` and the state
`[1, 0, 0, 0, 0, 0]`. -/
theorem odefunc_trap_mass_conserved_witness :
    (3 ≤ kvalsC4.Nx ∧ kvalsC4.k_onA = 0 ∧ kvalsC4.k_onP = 0 ∧ kvalsC4.k_offA = 0 ∧
      kvalsC4.k_offP = 0 ∧ kvalsC4.k_AP = 0 ∧ kvalsC4.k_PA = 0 ∧
      kvalsC4.v_func = (fun _ _ _ => 0) ∧
      odefunc 0 [1, 0, 0, 0, 0, 0] kvalsC4 = .ok [-2, 1, 0, 0, 0, 0]) ∧
    trapWeightedSum (([(-2 : ℚ), 1, 0, 0, 0, 0]).take kvalsC4.Nx)
      + trapWeightedSum (([(-2 : ℚ), 1, 0, 0, 0, 0]).drop kvalsC4.Nx) = 0 :=
  ⟨⟨by decide, rfl, rfl, rfl, rfl, rfl, rfl, rfl, odefunc_kvalsC4_eval⟩,
    odefunc_trap_mass_conserved kvalsC4 0 [1, 0, 0, 0, 0, 0] [-2, 1, 0, 0, 0, 0]
      (by decide) rfl rfl rfl rfl rfl rfl rfl odefunc_kvalsC4_eval⟩

end Goehring
namespace Goehring

/-! ### Simpson quadrature on constant data over a uniform grid -/

lemma pairTerm_const (y x : ℕ → ℚ) (c d : ℚ) (hd : d ≠ 0) (i : ℕ)
    (hy0 : y i = c) (hy1 : y (i + 1) = c) (hy2 : y (i + 2) = c)
    (hx0 : x (i + 1) - x i = d) (hx1 : x (i + 2) - x (i + 1) = d) :
    pairTerm y x i = 2 * d * c := by
  simp only [pairTerm]
  rw [hy0, hy1, hy2, hx0, hx1]
  field_simp
  ring

lemma basicSimpson_const (y x : ℕ → ℚ) (c d : ℚ) (hd : d ≠ 0) :
    ∀ m : ℕ, (∀ i, i ≤ 2 * m → y i = c) →
      (∀ i, i + 1 ≤ 2 * m → x (i + 1) - x i = d) →
      basicSimpson y x m = 2 * d * c * (m : ℚ) := by
  intro m
  induction m with
  | zero =>
    intro _ _
    simp [basicSimpson]
  | succ m ih =>
    intro hy hx
    have hstep : basicSimpson y x (m + 1) = basicSimpson y x m + pairTerm y x (2 * m) := rfl
    rw [hstep, ih (fun i hi => hy i (by omega)) (fun i hi => hx i (by omega)),
      pairTerm_const y x c d hd (2 * m) (hy _ (by omega)) (hy _ (by omega))
        (hy _ (by omega)) (hx _ (by omega)) (hx _ (by omega))]
    push_cast
    ring

lemma simpson_const_linspace (a b c : ℚ) (n : ℕ) (hn : 2 ≤ n) (hab : b - a ≠ 0) :
    simpson (List.replicate n c) (linspace a b n) = c * (b - a) := by
  have hncast : (2 : ℚ) ≤ (n : ℚ) := by exact_mod_cast hn
  have hq : ((n : ℚ) - 1) ≠ 0 := by linarith
  obtain ⟨d, hdd⟩ : ∃ d : ℚ, d = (b - a) / ((n : ℚ) - 1) := ⟨_, rfl⟩
  have hd : d ≠ 0 := by
    rw [hdd]
    exact div_ne_zero hab hq
  have hdn : d * ((n : ℚ) - 1) = b - a := by
    rw [hdd]
    exact div_mul_cancel₀ _ hq
  have hy : ∀ i, i < n → (List.replicate n c).getD i 0 = c := fun i hi => getD_replicate hi
  have hx : ∀ i, i + 1 < n →
      (linspace a b n).getD (i + 1) 0 - (linspace a b n).getD i 0 = d := by
    intro i hi
    rw [hdd, linspace_getD a b hi, linspace_getD a b (by omega)]
    push_cast
    ring
  simp only [simpson, List.length_replicate]
  by_cases hpar : n % 2 = 0
  · rw [if_pos hpar]
    by_cases h2 : n = 2
    · subst h2
      rw [if_pos rfl]
      rw [hy 0 (by omega), hy 1 (by omega), hx 0 (by omega)]
      have hd2 : d = b - a := by
        rw [hdd]
        norm_num
      rw [hd2]
      ring
    · rw [if_neg h2, if_neg (by omega)]
      have h4 : 4 ≤ n := by omega
      have hbasic : basicSimpson (fun i => (List.replicate n c).getD i 0)
          (fun i => (linspace a b n).getD i 0) ((n - 2) / 2)
          = 2 * d * c * (((n - 2) / 2 : ℕ) : ℚ) := by
        apply basicSimpson_const _ _ c d hd
        · intro i hi
          exact hy i (by omega)
        · intro i hi
          exact hx i (by omega)
      have hx0 : (linspace a b n).getD (n - 2) 0 - (linspace a b n).getD (n - 3) 0 = d := by
        have e : n - 3 + 1 = n - 2 := by omega
        have h := hx (n - 3) (by omega)
        rw [e] at h
        exact h
      have hx1 : (linspace a b n).getD (n - 1) 0 - (linspace a b n).getD (n - 2) 0 = d := by
        have e : n - 2 + 1 = n - 1 := by omega
        have h := hx (n - 2) (by omega)
        rw [e] at h
        exact h
      rw [hbasic, hx0, hx1, hy (n - 1) (by omega), hy (n - 2) (by omega),
        hy (n - 3) (by omega)]
      have hm : (((n - 2) / 2 : ℕ) : ℚ) * 2 = (n : ℚ) - 2 := by
        have hnat : (n - 2) / 2 * 2 = n - 2 := by omega
        have h2c : ((n - 2 : ℕ) : ℚ) = (n : ℚ) - 2 := by
          push_cast [Nat.cast_sub (show 2 ≤ n by omega)]
          ring
        rw [← h2c]
        exact_mod_cast hnat
      have h5 : ∀ e : ℚ, e ≠ 0 → (2 * e ^ 2 + 3 * e * e) / (6 * (e + e)) = 5 * e / 12 := by
        intro e he
        have hne1 : (6 : ℚ) * (e + e) ≠ 0 := by
          intro h
          apply he
          linarith
        rw [div_eq_div_iff hne1 (by norm_num : (12 : ℚ) ≠ 0)]
        ring
      have h6 : ∀ e : ℚ, e ≠ 0 → (e ^ 2 + 3 * e * e) / (6 * e) = 2 * e / 3 := by
        intro e he
        have hne1 : (6 : ℚ) * e ≠ 0 := by
          intro h
          apply he
          linarith
        rw [div_eq_div_iff hne1 (by norm_num : (3 : ℚ) ≠ 0)]
        ring
      have h7 : ∀ e : ℚ, e ≠ 0 → e ^ 3 / (6 * e * (e + e)) = e / 12 := by
        intro e he
        have hne1 : (6 : ℚ) * e * (e + e) ≠ 0 := by
          have h12 : (6 : ℚ) * e * (e + e) = 12 * e ^ 2 := by ring
          rw [h12]
          exact mul_ne_zero (by norm_num) (pow_ne_zero 2 he)
        rw [div_eq_div_iff hne1 (by norm_num : (12 : ℚ) ≠ 0)]
        ring
      rw [h5 d hd, h6 d hd, h7 d hd]
      have goal2 : 2 * d * c * (((n - 2) / 2 : ℕ) : ℚ) + 5 * d / 12 * c + 2 * d / 3 * c
          - d / 12 * c = c * (b - a) := by
        have step : 2 * d * c * (((n - 2) / 2 : ℕ) : ℚ) + 5 * d / 12 * c + 2 * d / 3 * c
            - d / 12 * c = d * c * ((((n - 2) / 2 : ℕ) : ℚ) * 2) + d * c := by
          ring
        rw [step, hm]
        calc d * c * ((n : ℚ) - 2) + d * c = c * (d * ((n : ℚ) - 1)) := by ring
          _ = c * (b - a) := by rw [hdn]
      exact goal2
  · rw [if_neg hpar]
    have hbasic : basicSimpson (fun i => (List.replicate n c).getD i 0)
        (fun i => (linspace a b n).getD i 0) ((n - 1) / 2)
        = 2 * d * c * (((n - 1) / 2 : ℕ) : ℚ) := by
      apply basicSimpson_const _ _ c d hd
      · intro i hi
        exact hy i (by omega)
      · intro i hi
        exact hx i (by omega)
    rw [hbasic]
    have hm : (((n - 1) / 2 : ℕ) : ℚ) * 2 = (n : ℚ) - 1 := by
      have h2c : ((n - 1 : ℕ) : ℚ) = (n : ℚ) - 1 := by
        push_cast [Nat.cast_sub (show 1 ≤ n by omega)]
        ring
      rw [← h2c]
      exact_mod_cast (show (n - 1) / 2 * 2 = n - 1 by omega)
    calc 2 * d * c * (((n - 1) / 2 : ℕ) : ℚ)
        = d * c * ((((n - 1) / 2 : ℕ) : ℚ) * 2) := by ring
      _ = d * c * ((n : ℚ) - 1) := by rw [hm]
      _ = c * (b - a) := by rw [← hdn]; ring

end Goehring
namespace Goehring

/-- Claim C6: `Ybar` is `2·(composite Simpson integral of Y over the grid X)/L`;
on a grid that spans exactly length `L`, `Ybar` of the constant array `Y = c`
evaluates to `2c`; and the default cytoplasmic capabilities are
`A_cyto = rho_A - psi·Ybar(A)` and `P_cyto = rho_P - psi·Ybar(P)`. -/
theorem Ybar_spec (k : Params) (c : ℚ)
    (hX : k.X = linspace k.x0 k.xL k.Nx) (hNx : 2 ≤ k.Nx)
    (hspan : k.xL - k.x0 = k.L) (hL : k.L ≠ 0) :
    (∀ Y : List ℚ, Ybar k Y = 2 * simpson Y k.X / k.L) ∧
    Ybar k (List.replicate k.Nx c) = 2 * c ∧
    (∀ A : List ℚ, default_A_cyto k A = k.rho_A - k.psi * Ybar k A) ∧
    (∀ P : List ℚ, default_P_cyto k P = k.rho_P - k.psi * Ybar k P) := by
  refine ⟨fun Y => rfl, ?_, fun A => rfl, fun P => rfl⟩
  rw [Ybar, hX, simpson_const_linspace k.x0 k.xL c k.Nx hNx (by rw [hspan]; exact hL),
    hspan]
  field_simp
  ring

/-- Witness for C6 at `paramsC6` (a 3-node grid spanning `L = 1`) and
`c = 5`. -/
theorem Ybar_spec_witness :
    (paramsC6.X = linspace paramsC6.x0 paramsC6.xL paramsC6.Nx ∧ 2 ≤ paramsC6.Nx ∧
      paramsC6.xL - paramsC6.x0 = paramsC6.L ∧ paramsC6.L ≠ 0) ∧
    ((∀ Y : List ℚ, Ybar paramsC6 Y = 2 * simpson Y paramsC6.X / paramsC6.L) ∧
      Ybar paramsC6 (List.replicate paramsC6.Nx 5) = 2 * 5 ∧
      (∀ A : List ℚ, default_A_cyto paramsC6 A
          = paramsC6.rho_A - paramsC6.psi * Ybar paramsC6 A) ∧
      (∀ P : List ℚ, default_P_cyto paramsC6 P
          = paramsC6.rho_P - paramsC6.psi * Ybar paramsC6 P)) :=
  ⟨⟨rfl, by decide, by norm_num [paramsC6, DEFAULT_PARAMETERS],
      by norm_num [paramsC6, DEFAULT_PARAMETERS]⟩,
    Ybar_spec paramsC6 5 rfl (by decide)
      (by norm_num [paramsC6, DEFAULT_PARAMETERS])
      (by norm_num [paramsC6, DEFAULT_PARAMETERS])⟩

end Goehring
